import Mathlib

/-!
Verification of the snapshot-diff file watcher (`watch.go`).

The Go source is shallowly embedded: the filesystem primitives that the
source treats as external collaborators (`os.Lstat`, `filepath.Walk`,
`time.Ticker`, channel close) become explicit parameters or instrumented
state, and every pure computation (the diff algorithm, `Add`, `Close`,
`Event.String`, `directoryMap`'s walk callback) is translated line by line.
Machine integers (`uint32` ops, mode bits, timestamps) never overflow in the
relevant operations, so they are modelled as `Nat`/`Int`.
-/

namespace FsWatch

/-- Filesystem errors are treated as an external, structureless value
(the Go code only forwards `error` values, never inspects them). -/
abbrev FsError := String

/-- Embeds the Go `FileInfo` struct: the full path passed to the walk
callback plus the metadata the diff actually reads (`ModTime()`, `Mode()`). -/
structure FileInfo where
  path : String
  modTime : Int
  mode : Nat
deriving DecidableEq

/-- A snapshot: the Go `map[string]FileInfo`, modelled as an association
list from entry base name to metadata (a real Go map has no duplicate
keys; theorems that need this take a `NodupKeys` hypothesis). -/
abbrev Snapshot := List (String × FileInfo)

/-- Go map read `m[k]`: the value stored for key `k`, if any. -/
def lookup {α : Type} (k : String) : List (String × α) → Option α
  | [] => none
  | (k', v) :: l => if k' = k then some v else lookup k l

/-- Go map write `m[k] = v`: overwrites any existing entry for `k`. -/
def mapInsert {α : Type} (m : List (String × α)) (k : String) (v : α) :
    List (String × α) :=
  (k, v) :: m.filter (fun kv => kv.1 != k)

/-- The keys of the map are pairwise distinct (invariant of every Go map). -/
def NodupKeys {α : Type} (m : List (String × α)) : Prop :=
  (m.map Prod.fst).Nodup

/-- The Op bit for a created file (`Create Op = 1 << iota`). -/
def Create : Nat := 1

/-- The Op bit for a written file. -/
def Write : Nat := 2

/-- The Op bit for a removed file. -/
def Remove : Nat := 4

/-- The Op bit for a renamed file (declared in the vocabulary, never
produced by the diff). -/
def Rename : Nat := 8

/-- The Op bit for a mode change. -/
def Chmod : Nat := 16

/-- The Go `Event` struct: subject path and a bitset of Op flags. -/
structure Event where
  Name : String
  Op : Nat
deriving DecidableEq

/-- Events the additions/modifications pass emits for one entry `(k, v)` of
the new snapshot, given the old snapshot (the body of the
`for k, v := range n` loop in `start`). -/
def emitNew (old : Snapshot) (k : String) (v : FileInfo) : List Event :=
  match lookup k old with
  | none => [{ Name := v.path, Op := Create }]
  | some f =>
      (if f.modTime ≠ v.modTime then [{ Name := v.path, Op := Write }] else []) ++
      (if f.mode ≠ v.mode then [{ Name := v.path, Op := Chmod }] else [])

/-- Events the removals pass emits for one entry `(k, v)` of the old
snapshot, given the new snapshot (the `for k, v := range curWatch.files`
loop in `start`). -/
def emitOld (n : Snapshot) (k : String) (v : FileInfo) : List Event :=
  match lookup k n with
  | none => [{ Name := v.path, Op := Remove }]
  | some _ => []

/-- All events one tick emits for one target: the additions/modifications
pass over the new snapshot followed by the removals pass over the old one,
exactly as the two loops in `start` run. -/
def diffEvents (old n : Snapshot) : List Event :=
  (n.flatMap fun kv => emitNew old kv.1 kv.2) ++
  (old.flatMap fun kv => emitOld n kv.1 kv.2)

/-- One tick's processing of a single target, given the stored snapshot and
the outcome of the `directoryMap` re-snapshot: returns the errors sent on
the error channel, the events sent on the event channel, and the snapshot
stored back into `w.watches`. On error the source sends the error but does
NOT skip the rest of the loop body: `n` stays `nil` (reads as the empty
map) and is stored as the new snapshot. -/
def tickTarget (old : Snapshot) (res : Except FsError Snapshot) :
    List FsError × List Event × Snapshot :=
  let errs := match res with
    | .error e => [e]
    | .ok _ => []
  let n := match res with
    | .error _ => []
    | .ok m => m
  (errs, diffEvents old n, n)

/-- One call of `filepath.Walk` to the callback inside `directoryMap`: the
visited entry's base name (`f.Name()`), the full path argument, the metadata
the callback stores, and the per-entry walk error the walk may pass along
(which the callback receives and ignores). -/
structure WalkEntry where
  name : String
  path : String
  modTime : Int
  mode : Nat
  err : Option FsError
deriving DecidableEq

/-- The `FileInfo{f, path}` value the callback builds for a visit. -/
def toFileInfo (v : WalkEntry) : FileInfo :=
  { path := v.path, modTime := v.modTime, mode := v.mode }

/-- The walk callback of `directoryMap`: inserts the visit keyed by base
name and returns `nil` — it never looks at the incoming error `v.err`. -/
def walkFn (m : List (String × FileInfo)) (v : WalkEntry) :
    List (String × FileInfo) × Option FsError :=
  (mapInsert m v.name (toFileInfo v), none)

/-- `filepath.Walk` folding the callback over the visit trace: if the
callback returned a non-nil error the walk would stop early with the map
built so far (the Go code discards Walk's returned error either way). -/
def runWalk (m : List (String × FileInfo)) :
    List WalkEntry → List (String × FileInfo)
  | [] => m
  | v :: vs =>
      match walkFn m v with
      | (m', none) => runWalk m' vs
      | (m', some _) => m'

/-- Spec-side comparison point, following the spec's words that traversal
is best-effort over every entry: the insertion folded over the whole visit
trace with no early stop. -/
def snapshotAll (m : List (String × FileInfo)) (visits : List WalkEntry) :
    List (String × FileInfo) :=
  visits.foldl (fun acc v => mapInsert acc v.name (toFileInfo v)) m

/-- A visit with its per-entry walk error erased. -/
def clearErr (v : WalkEntry) : WalkEntry :=
  { v with err := none }

/-- `directoryMap(path)`: the `os.Lstat(path)` outcome and the walk's visit
trace are the filesystem, passed explicitly. Fails only when the initial
lstat fails; otherwise walks and returns the map. -/
def directoryMap (rootLstat : Except FsError Unit) (visits : List WalkEntry) :
    Except FsError (List (String × FileInfo)) :=
  match rootLstat with
  | .error e => .error e
  | .ok _ => .ok (runWalk [] visits)

/-- The latest visit in the trace whose base name is `nm`. -/
def lastNamed (nm : String) : List WalkEntry → Option WalkEntry
  | [] => none
  | v :: vs =>
      match lastNamed nm vs with
      | some w => some w
      | none => if v.name = nm then some v else none

/-- Number of map entries stored under key `k`. -/
def countKeys {α : Type} (k : String) (m : List (String × α)) : Nat :=
  (m.filter (fun kv => kv.1 == k)).length

/-- The Go `watch` struct: one registered root and its current snapshot. -/
structure watch where
  path : String
  files : Snapshot
deriving DecidableEq

/-- Errors `Add` can return. -/
inductive AddError where
  | emptyPath
  | alreadyWatched
  | fsError (e : FsError)
deriving DecidableEq

/-- The `Watcher` state the claims touch. The channels and the ticker are
external resources; their close/stop side effects are instrumented as
counters so that "exactly once" is expressible: `eventCloses` and
`errorCloses` count executed `close(...)` statements (a Go `close` of an
already-closed channel panics — modelled in `Watcher.close`), `tickerStops`
counts `ticker.Stop()` calls. -/
structure Watcher where
  watches : List (String × watch)
  isRunning : Bool
  tickerStops : Nat
  eventCloses : Nat
  errorCloses : Nat
deriving DecidableEq

/-- `start`: arms the ticker and sets the running flag (the spawned
goroutine's per-tick work is `tickTarget`). -/
def Watcher.start (w : Watcher) : Watcher :=
  { w with isRunning := true }

/-- `NewWatcher`: fresh state (no watches, counters zero, `isRunning`
initially false) followed by `start`. -/
def newWatcher : Watcher :=
  Watcher.start
    { watches := [], isRunning := false, tickerStops := 0, eventCloses := 0,
      errorCloses := 0 }

/-- `Add(path)`: the initial `directoryMap(path)` outcome is the `snap`
parameter. Returns the error result and the resulting state. -/
def Watcher.add (w : Watcher) (path : String)
    (snap : Except FsError Snapshot) : Option AddError × Watcher :=
  if path = "" then (some .emptyPath, w)
  else if (lookup path w.watches).isSome then (some .alreadyWatched, w)
  else
    match snap with
    | .error e => (some (.fsError e), w)
    | .ok files =>
        (none, { w with watches := mapInsert w.watches path
                          { path := path, files := files } })

/-- Go `close(ch)` on a channel whose executed-close count is `c`: panics
(no result) when the channel is already closed, else records the close. -/
def closeChan (c : Nat) : Option Nat :=
  if c = 0 then some (c + 1) else none

/-- `Close()`: when running, stops the ticker, clears the flag and closes
both channels; otherwise does nothing. `none` is a runtime panic. -/
def Watcher.close (w : Watcher) : Option Watcher :=
  if w.isRunning then
    match closeChan w.eventCloses, closeChan w.errorCloses with
    | some ec, some rc =>
        some { w with isRunning := false, tickerStops := w.tickerStops + 1,
                      eventCloses := ec, errorCloses := rc }
    | _, _ => none
  else some w

/-- `n` consecutive calls of `Close()`, propagating a panic. -/
def closeIter : Nat → Watcher → Option Watcher
  | 0, w => some w
  | n + 1, w => (Watcher.close w).bind (closeIter n)

/-- Go `%q` on a path: double quotes around the escaped characters (quote
and backslash escaped; paths with other escapable runes are out of scope of
the claims, and the same function is used on both sides of the statement). -/
def goQuote (s : String) : String :=
  "\"" ++ String.join (s.data.map fun c =>
    if c = '"' then "\\\"" else if c = '\\' then "\\\\" else String.singleton c) ++ "\""

/-- Go `events[1:]` applied when the accumulated flag string is nonempty. -/
def trimLeadingBar (s : String) : String :=
  if s.length > 0 then s.drop 1 else s

/-- `Event.String()`: accumulates `"|NAME"` pieces in the source's fixed
order, strips the leading bar, and formats with `%q: %s`. -/
def eventString (e : Event) : String :=
  goQuote e.Name ++ ": " ++ trimLeadingBar (
    (if e.Op &&& Create == Create then "|CREATE" else "") ++
    (if e.Op &&& Remove == Remove then "|REMOVE" else "") ++
    (if e.Op &&& Write == Write then "|WRITE" else "") ++
    (if e.Op &&& Rename == Rename then "|RENAME" else "") ++
    (if e.Op &&& Chmod == Chmod then "|CHMOD" else ""))

/-- Spec-side: the names of the set flags, in the spec's fixed order
Create, Remove, Write, Rename, Chmod, absent flags omitted. -/
def specFlagNames (op : Nat) : List String :=
  (if op &&& Create == Create then ["CREATE"] else []) ++
  (if op &&& Remove == Remove then ["REMOVE"] else []) ++
  (if op &&& Write == Write then ["WRITE"] else []) ++
  (if op &&& Rename == Rename then ["RENAME"] else []) ++
  (if op &&& Chmod == Chmod then ["CHMOD"] else [])

/-- Paths stored in a snapshot are pairwise distinct (true of any snapshot
a walk produces: each visited node has its own path). -/
def NodupPaths (s : Snapshot) : Prop :=
  (s.map fun kv => kv.2.path).Nodup

/-- Two snapshots of the same root agree on which key a path belongs to
(true of walk-produced snapshots, where the key is the path's base name). -/
def Coherent (old n : Snapshot) : Prop :=
  ∀ a ∈ old, ∀ b ∈ n, a.2.path = b.2.path → a.1 = b.1

/-! Helper lemmas about the embedded map operations. -/

theorem mem_of_lookup {α : Type} {k : String} {v : α} {l : List (String × α)}
    (h : lookup k l = some v) : (k, v) ∈ l := by
  induction l with
  | nil => simp [lookup] at h
  | cons hd tl ih =>
    obtain ⟨k', v'⟩ := hd
    by_cases hk : k' = k
    · subst hk
      simp [lookup] at h
      simp [h]
    · simp [lookup, hk] at h
      exact List.mem_cons_of_mem _ (ih h)

theorem isSome_lookup_of_mem {α : Type} {k : String} {v : α}
    {l : List (String × α)} (h : (k, v) ∈ l) : (lookup k l).isSome := by
  induction l with
  | nil => simp at h
  | cons hd tl ih =>
    obtain ⟨k', v'⟩ := hd
    rcases List.mem_cons.mp h with h1 | h2
    · rw [Prod.mk.injEq] at h1
      obtain ⟨h1, _⟩ := h1
      subst h1
      simp [lookup]
    · by_cases hk : k' = k <;> simp [lookup, hk]
      exact ih h2

theorem lookup_of_mem_nodup {α : Type} {l : List (String × α)} {k : String}
    {v : α} (hn : NodupKeys l) (h : (k, v) ∈ l) : lookup k l = some v := by
  induction l with
  | nil => simp at h
  | cons hd tl ih =>
    obtain ⟨k', v'⟩ := hd
    rw [NodupKeys, List.map_cons, List.nodup_cons] at hn
    rcases List.mem_cons.mp h with h1 | h2
    · rw [Prod.mk.injEq] at h1
      obtain ⟨ha, hb⟩ := h1
      subst ha
      subst hb
      simp [lookup]
    · have hne : k' ≠ k := by
        rintro rfl
        exact hn.1 (List.mem_map.mpr ⟨(k', v), h2, rfl⟩)
      simp [lookup, hne]
      exact ih hn.2 h2

theorem emitNew_name {old : Snapshot} {k : String} {v : FileInfo} {e : Event}
    (h : e ∈ emitNew old k v) : e.Name = v.path := by
  unfold emitNew at h
  rcases hl : lookup k old with _ | f <;> rw [hl] at h
  · simp at h
    rw [h]
  · rcases List.mem_append.mp h with h1 | h1 <;> split at h1 <;> simp at h1 <;>
      rw [h1]

theorem emitOld_name {n : Snapshot} {k : String} {v : FileInfo} {e : Event}
    (h : e ∈ emitOld n k v) : e.Name = v.path := by
  unfold emitOld at h
  rcases hl : lookup k n with _ | f <;> rw [hl] at h <;> simp at h
  rw [h]

theorem emitNew_op {old : Snapshot} {k : String} {v : FileInfo} {e : Event}
    (h : e ∈ emitNew old k v) : e.Op = Create ∨ e.Op = Write ∨ e.Op = Chmod := by
  unfold emitNew at h
  rcases hl : lookup k old with _ | f <;> rw [hl] at h
  · simp at h
    rw [h]
    simp
  · rcases List.mem_append.mp h with h1 | h1 <;> split at h1 <;> simp at h1 <;>
      rw [h1] <;> simp

theorem emitOld_op {n : Snapshot} {k : String} {v : FileInfo} {e : Event}
    (h : e ∈ emitOld n k v) : e.Op = Remove := by
  unfold emitOld at h
  rcases hl : lookup k n with _ | f <;> rw [hl] at h <;> simp at h
  rw [h]

theorem filter_flatMap {α β : Type} (l : List α) (f : α → List β)
    (p : β → Bool) :
    (l.flatMap f).filter p = l.flatMap fun a => (f a).filter p := by
  induction l with
  | nil => rfl
  | cons hd tl ih => simp [List.flatMap_cons, List.filter_append, ih]

theorem flatMap_eq_single {α β : Type} {l : List α} {f : α → List β} {a : α}
    (ha : a ∈ l) (hnd : l.Nodup) (h : ∀ b ∈ l, b ≠ a → f b = []) :
    l.flatMap f = f a := by
  induction l with
  | nil => simp at ha
  | cons hd tl ih =>
    rw [List.nodup_cons] at hnd
    rcases List.mem_cons.mp ha with rfl | hmem
    · have htl : tl.flatMap f = [] :=
        List.flatMap_eq_nil_iff.mpr fun b hb =>
          h b (List.mem_cons_of_mem _ hb) fun hba => hnd.1 (hba ▸ hb)
      simp [List.flatMap_cons, htl]
    · have hhd : f hd = [] :=
        h hd (List.mem_cons_self _ _) fun hh => by
          subst hh
          exact hnd.1 hmem
      simp [List.flatMap_cons, hhd]
      exact ih hmem hnd.2 fun b hb => h b (List.mem_cons_of_mem _ hb)

theorem lookup_filter_ne {α : Type} {k' k : String} (h : k' ≠ k)
    (l : List (String × α)) :
    lookup k (l.filter fun kv => kv.1 != k') = lookup k l := by
  induction l with
  | nil => rfl
  | cons hd tl ih =>
    obtain ⟨a, b⟩ := hd
    by_cases hak : a = k'
    · subst hak
      have hne : a ≠ k := h
      simp [List.filter_cons, lookup, hne, ih]
    · simp only [List.filter_cons]
      rw [if_pos (by simpa using hak)]
      by_cases hk : a = k <;> simp [lookup, hk, ih]

theorem lookup_mapInsert {α : Type} (m : List (String × α)) (k' k : String)
    (v : α) :
    lookup k (mapInsert m k' v) = if k' = k then some v else lookup k m := by
  unfold mapInsert
  by_cases h : k' = k
  · subst h
    simp [lookup]
  · simp [lookup, h, lookup_filter_ne h m]

theorem runWalk_eq_snapshotAll (visits : List WalkEntry) :
    ∀ m, runWalk m visits = snapshotAll m visits := by
  induction visits with
  | nil => intro m; rfl
  | cons v vs ih => intro m; exact ih (mapInsert m v.name (toFileInfo v))

theorem runWalk_clearErr (visits : List WalkEntry) :
    ∀ m, runWalk m (visits.map clearErr) = runWalk m visits := by
  induction visits with
  | nil => intro m; rfl
  | cons v vs ih => intro m; exact ih (mapInsert m v.name (toFileInfo v))

theorem lookup_snapshotAll (nm : String) (visits : List WalkEntry) :
    ∀ m, lookup nm (snapshotAll m visits) =
      match lastNamed nm visits with
      | some w => some (toFileInfo w)
      | none => lookup nm m := by
  induction visits with
  | nil => intro m; rfl
  | cons v vs ih =>
    intro m
    have h1 : snapshotAll m (v :: vs) =
        snapshotAll (mapInsert m v.name (toFileInfo v)) vs := rfl
    rw [h1, ih]
    cases hl : lastNamed nm vs with
    | some w => simp [lastNamed, hl]
    | none =>
      by_cases hv : v.name = nm <;>
        simp [lastNamed, hl, lookup_mapInsert, hv]

theorem nodupKeys_mapInsert {α : Type} {m : List (String × α)} (k : String)
    (v : α) (h : NodupKeys m) : NodupKeys (mapInsert m k v) := by
  unfold NodupKeys mapInsert
  rw [List.map_cons, List.nodup_cons]
  refine ⟨?_, ?_⟩
  · intro hmem
    rcases List.mem_map.mp hmem with ⟨kv, hkv, hfst⟩
    have hb := (List.mem_filter.mp hkv).2
    exact absurd hfst (bne_iff_ne.mp hb)
  · exact List.Nodup.sublist (List.Sublist.map _ (List.filter_sublist m)) h

theorem nodupKeys_snapshotAll (visits : List WalkEntry) :
    ∀ m, NodupKeys m → NodupKeys (snapshotAll m visits) := by
  induction visits with
  | nil => intro m h; exact h
  | cons v vs ih => intro m h; exact ih _ (nodupKeys_mapInsert _ _ h)

theorem countKeys_eq_one {α : Type} {m : List (String × α)} {k : String}
    {v : α} (hn : NodupKeys m) (h : lookup k m = some v) :
    countKeys k m = 1 := by
  induction m with
  | nil => simp [lookup] at h
  | cons hd tl ih =>
    obtain ⟨a, b⟩ := hd
    rw [NodupKeys, List.map_cons, List.nodup_cons] at hn
    by_cases hak : a = k
    · subst hak
      have h0 : (tl.filter fun kv => kv.1 == a).length = 0 := by
        rw [List.length_eq_zero, List.filter_eq_nil_iff]
        intro kv hkv hbeq
        exact hn.1 (List.mem_map.mpr ⟨kv, hkv, beq_iff_eq.mp hbeq⟩)
      simp [countKeys, List.filter_cons, h0]
    · simp only [lookup, if_neg hak] at h
      have := ih hn.2 h
      simpa [countKeys, List.filter_cons, hak] using this

theorem filter_name_eq_nil {l : List Event} {p : String}
    (h : ∀ e ∈ l, e.Name ≠ p) : l.filter (fun e => e.Name == p) = [] :=
  List.filter_eq_nil_iff.mpr fun e he => by simpa using h e he

/-! The claims. -/

/-- Claim C1: the spec says a failed re-snapshot forwards the error, emits
no events for the target this tick, and leaves the stored snapshot
unchanged. The code forwards the error but does not skip the rest of the
loop body: the `nil` result is diffed against the baseline (emitting a
Remove for every stored entry) and then stored as the new snapshot. This
theorem evaluates the tick at such a failing input. -/
theorem tick_error_emits_removes_and_clears_baseline :
    tickTarget [("a.txt", { path := "/tmp/w/a.txt", modTime := 7, mode := 420 })]
        (Except.error "lstat /tmp/w: no such file or directory")
      = (["lstat /tmp/w: no such file or directory"],
         [{ Name := "/tmp/w/a.txt", Op := Remove }],
         []) := rfl

/-- Claim C2: once the initial lstat on the root succeeds, `directoryMap`
always returns a mapping (the walk over the whole visit trace), the
per-entry walk errors have no effect on the result, and only a failing
initial lstat fails the call. -/
theorem snapshot_suppresses_walk_errors (visits : List WalkEntry)
    (e : FsError) :
    directoryMap (Except.ok ()) visits = Except.ok (snapshotAll [] visits)
    ∧ directoryMap (Except.ok ()) (visits.map clearErr)
        = directoryMap (Except.ok ()) visits
    ∧ directoryMap (Except.error e) visits = Except.error e := by
  refine ⟨?_, ?_, rfl⟩
  · show Except.ok (runWalk [] visits) = _
    rw [runWalk_eq_snapshotAll]
  · show Except.ok (runWalk [] (visits.map clearErr))
        = Except.ok (runWalk [] visits)
    rw [runWalk_clearErr]

/-- Claim C5: diffing a snapshot against itself emits zero events. -/
theorem diff_self_no_events (s : Snapshot) (h : NodupKeys s) :
    diffEvents s s = [] := by
  unfold diffEvents
  rw [List.append_eq_nil]
  refine ⟨List.flatMap_eq_nil_iff.mpr ?_, List.flatMap_eq_nil_iff.mpr ?_⟩
  · rintro ⟨k, v⟩ hm
    have hl : lookup k s = some v := lookup_of_mem_nodup h hm
    simp [emitNew, hl]
  · rintro ⟨k, v⟩ hm
    have hl : lookup k s = some v := lookup_of_mem_nodup h hm
    simp [emitOld, hl]

/-- Witness for C5 at a one-entry snapshot. -/
theorem diff_self_no_events_witness :
    diffEvents [("a.txt", { path := "/w/a.txt", modTime := 5, mode := 420 })]
        [("a.txt", { path := "/w/a.txt", modTime := 5, mode := 420 })] = [] :=
  diff_self_no_events
    [("a.txt", { path := "/w/a.txt", modTime := 5, mode := 420 })]
    (by unfold NodupKeys; decide)

/-- Claim C8: every event the diff emits carries exactly one of the
Create, Write, Chmod or Remove flags, and never the Rename bit. -/
theorem diff_never_rename (old n : Snapshot) (e : Event)
    (h : e ∈ diffEvents old n) :
    (e.Op = Create ∨ e.Op = Write ∨ e.Op = Chmod ∨ e.Op = Remove)
    ∧ e.Op &&& Rename = 0 := by
  unfold diffEvents at h
  have hop : e.Op = Create ∨ e.Op = Write ∨ e.Op = Chmod ∨ e.Op = Remove := by
    rcases List.mem_append.mp h with h1 | h1
    · rcases List.mem_flatMap.mp h1 with ⟨kv, _, hm⟩
      rcases emitNew_op hm with h' | h' | h' <;> tauto
    · rcases List.mem_flatMap.mp h1 with ⟨kv, _, hm⟩
      exact Or.inr (Or.inr (Or.inr (emitOld_op hm)))
  refine ⟨hop, ?_⟩
  rcases hop with h' | h' | h' | h' <;> rw [h'] <;> decide

/-- Witness for C8 at a one-event diff. -/
theorem diff_never_rename_witness :
    (({ Name := "/w/b.txt", Op := 1 } : Event).Op = Create
      ∨ ({ Name := "/w/b.txt", Op := 1 } : Event).Op = Write
      ∨ ({ Name := "/w/b.txt", Op := 1 } : Event).Op = Chmod
      ∨ ({ Name := "/w/b.txt", Op := 1 } : Event).Op = Remove)
    ∧ ({ Name := "/w/b.txt", Op := 1 } : Event).Op &&& Rename = 0 :=
  diff_never_rename []
    [("b.txt", { path := "/w/b.txt", modTime := 3, mode := 420 })]
    { Name := "/w/b.txt", Op := 1 } (by decide)

/-- Claim C9: when several visits of one walk share a base name, the
resulting snapshot holds exactly one entry under that base name, namely the
metadata of the latest such visit (`lastNamed`), looked up by base name. -/
theorem snapshot_basename_collision (visits : List WalkEntry) (nm : String)
    (w : WalkEntry)
    (_hcol : 2 ≤ (visits.filter fun v => v.name == nm).length)
    (hlast : lastNamed nm visits = some w) :
    lookup nm (runWalk [] visits) = some (toFileInfo w)
    ∧ countKeys nm (runWalk [] visits) = 1 := by
  rw [runWalk_eq_snapshotAll]
  have hlook : lookup nm (snapshotAll [] visits) = some (toFileInfo w) := by
    rw [lookup_snapshotAll, hlast]
  refine ⟨hlook, countKeys_eq_one ?_ hlook⟩
  exact nodupKeys_snapshotAll visits [] (by simp [NodupKeys])

/-- Witness for C9: two files named `x` in different subdirectories of one
root; the later visit survives. -/
theorem snapshot_basename_collision_witness :
    lookup "x" (runWalk []
        [{ name := "x", path := "/r/a/x", modTime := 1, mode := 420, err := none },
         { name := "x", path := "/r/b/x", modTime := 2, mode := 384, err := none }])
      = some { path := "/r/b/x", modTime := 2, mode := 384 }
    ∧ countKeys "x" (runWalk []
        [{ name := "x", path := "/r/a/x", modTime := 1, mode := 420, err := none },
         { name := "x", path := "/r/b/x", modTime := 2, mode := 384, err := none }])
      = 1 :=
  snapshot_basename_collision
    [{ name := "x", path := "/r/a/x", modTime := 1, mode := 420, err := none },
     { name := "x", path := "/r/b/x", modTime := 2, mode := 384, err := none }]
    "x" { name := "x", path := "/r/b/x", modTime := 2, mode := 384, err := none }
    (by decide) (by decide)

/-- Claim C3: an entry name present in exactly one snapshot yields exactly
one event with that entry's path: Create with the new metadata's path when
only in the new snapshot, Remove with the old metadata's path when only in
the old one. Events are attributed to the entry by its path; the
hypotheses (distinct paths within each snapshot, and path-to-key coherence
across the two) hold of any snapshots a walk produces. -/
theorem diff_create_remove_detection (old n : Snapshot) (k : String)
    (v : FileInfo) (hop : NodupPaths old) (hnp : NodupPaths n)
    (hco : Coherent old n) :
    (lookup k n = some v → lookup k old = none →
      (diffEvents old n).filter (fun e => e.Name == v.path)
        = [{ Name := v.path, Op := Create }])
    ∧ (lookup k old = some v → lookup k n = none →
      (diffEvents old n).filter (fun e => e.Name == v.path)
        = [{ Name := v.path, Op := Remove }]) := by
  constructor
  · intro hkn hko
    have hmem : (k, v) ∈ n := mem_of_lookup hkn
    unfold diffEvents
    rw [List.filter_append, filter_flatMap, filter_flatMap]
    have hnew : (n.flatMap fun kv =>
          (emitNew old kv.1 kv.2).filter (fun e => e.Name == v.path))
        = (emitNew old k v).filter (fun e => e.Name == v.path) := by
      apply flatMap_eq_single hmem (List.Nodup.of_map _ hnp)
      intro b hb hne
      apply filter_name_eq_nil
      intro e he
      rw [emitNew_name he]
      intro hpath
      exact hne (List.inj_on_of_nodup_map hnp hb hmem hpath)
    have hold : (old.flatMap fun kv =>
          (emitOld n kv.1 kv.2).filter (fun e => e.Name == v.path)) = [] := by
      apply List.flatMap_eq_nil_iff.mpr
      intro b hb
      apply filter_name_eq_nil
      intro e he
      rw [emitOld_name he]
      intro hpath
      have hk1 : b.1 = k := hco b hb (k, v) hmem hpath
      have hmem' : (k, b.2) ∈ old := by
        rw [← hk1]
        exact hb
      have hs := isSome_lookup_of_mem hmem'
      rw [hko] at hs
      simp at hs
    rw [hnew, hold, List.append_nil]
    unfold emitNew
    rw [hko]
    simp
  · intro hko hkn
    have hmem : (k, v) ∈ old := mem_of_lookup hko
    unfold diffEvents
    rw [List.filter_append, filter_flatMap, filter_flatMap]
    have hnew : (n.flatMap fun kv =>
          (emitNew old kv.1 kv.2).filter (fun e => e.Name == v.path)) = [] := by
      apply List.flatMap_eq_nil_iff.mpr
      intro b hb
      apply filter_name_eq_nil
      intro e he
      rw [emitNew_name he]
      intro hpath
      have hk1 : k = b.1 := hco (k, v) hmem b hb hpath.symm
      have hmem' : (k, b.2) ∈ n := by
        rw [hk1]
        exact hb
      have hs := isSome_lookup_of_mem hmem'
      rw [hkn] at hs
      simp at hs
    have hold : (old.flatMap fun kv =>
          (emitOld n kv.1 kv.2).filter (fun e => e.Name == v.path))
        = (emitOld n k v).filter (fun e => e.Name == v.path) := by
      apply flatMap_eq_single hmem (List.Nodup.of_map _ hop)
      intro b hb hne
      apply filter_name_eq_nil
      intro e he
      rw [emitOld_name he]
      intro hpath
      exact hne (List.inj_on_of_nodup_map hop hb hmem hpath)
    rw [hnew, hold, List.nil_append]
    unfold emitOld
    rw [hkn]
    simp

/-- Witness for C3: `b.txt` appears only in the new snapshot (one Create)
and the removal of `c.txt` (one Remove), each checked through the
theorem's Create conjunct at a concrete diff. -/
theorem diff_create_remove_detection_witness :
    (diffEvents
        [("a.txt", { path := "/w/a.txt", modTime := 1, mode := 420 })]
        [("a.txt", { path := "/w/a.txt", modTime := 1, mode := 420 }),
         ("b.txt", { path := "/w/b.txt", modTime := 2, mode := 420 })]).filter
      (fun e => e.Name == "/w/b.txt")
      = [{ Name := "/w/b.txt", Op := Create }] :=
  (diff_create_remove_detection
      [("a.txt", { path := "/w/a.txt", modTime := 1, mode := 420 })]
      [("a.txt", { path := "/w/a.txt", modTime := 1, mode := 420 }),
       ("b.txt", { path := "/w/b.txt", modTime := 2, mode := 420 })]
      "b.txt" { path := "/w/b.txt", modTime := 2, mode := 420 }
      (by unfold NodupPaths; decide) (by unfold NodupPaths; decide)
      (by unfold Coherent; decide)).1 (by decide) (by decide)

/-- Claim C4: an entry present in both snapshots whose modTime and mode
both changed yields exactly two events, one carrying only the Write flag
and one carrying only the Chmod flag, in the order the source emits them. -/
theorem diff_write_chmod_two_events (old n : Snapshot) (k : String)
    (vo vn : FileInfo) (hnp : NodupPaths n) (hco : Coherent old n)
    (hko : lookup k old = some vo) (hkn : lookup k n = some vn)
    (hmt : vo.modTime ≠ vn.modTime) (hmd : vo.mode ≠ vn.mode) :
    (diffEvents old n).filter (fun e => e.Name == vn.path)
      = [{ Name := vn.path, Op := Write }, { Name := vn.path, Op := Chmod }] := by
  have hmem : (k, vn) ∈ n := mem_of_lookup hkn
  unfold diffEvents
  rw [List.filter_append, filter_flatMap, filter_flatMap]
  have hnew : (n.flatMap fun kv =>
        (emitNew old kv.1 kv.2).filter (fun e => e.Name == vn.path))
      = (emitNew old k vn).filter (fun e => e.Name == vn.path) := by
    apply flatMap_eq_single hmem (List.Nodup.of_map _ hnp)
    intro b hb hne
    apply filter_name_eq_nil
    intro e he
    rw [emitNew_name he]
    intro hpath
    exact hne (List.inj_on_of_nodup_map hnp hb hmem hpath)
  have hold : (old.flatMap fun kv =>
        (emitOld n kv.1 kv.2).filter (fun e => e.Name == vn.path)) = [] := by
    apply List.flatMap_eq_nil_iff.mpr
    intro b hb
    by_cases hpath : b.2.path = vn.path
    · have hk1 : b.1 = k := hco b hb (k, vn) hmem hpath
      have hb0 : emitOld n b.1 b.2 = [] := by
        rw [hk1]
        unfold emitOld
        rw [hkn]
      rw [hb0]
      rfl
    · apply filter_name_eq_nil
      intro e he
      rw [emitOld_name he]
      exact hpath
  rw [hnew, hold, List.append_nil]
  unfold emitNew
  rw [hko]
  simp [hmt, hmd]

/-- Witness for C4: `a.txt` changes both modTime and mode between the two
snapshots; the diff yields one Write event then one Chmod event. -/
theorem diff_write_chmod_two_events_witness :
    (diffEvents
        [("a.txt", { path := "/w/a.txt", modTime := 1, mode := 420 })]
        [("a.txt", { path := "/w/a.txt", modTime := 9, mode := 384 })]).filter
      (fun e => e.Name == "/w/a.txt")
      = [{ Name := "/w/a.txt", Op := Write }, { Name := "/w/a.txt", Op := Chmod }] :=
  diff_write_chmod_two_events
    [("a.txt", { path := "/w/a.txt", modTime := 1, mode := 420 })]
    [("a.txt", { path := "/w/a.txt", modTime := 9, mode := 384 })]
    "a.txt" { path := "/w/a.txt", modTime := 1, mode := 420 }
    { path := "/w/a.txt", modTime := 9, mode := 384 }
    (by unfold NodupPaths; decide) (by unfold Coherent; decide)
    (by decide) (by decide) (by decide) (by decide)

/-- Claim C6: `Add` rejects the empty path, a duplicate path, and a failing
initial snapshot (returning that error), leaving the target set unchanged
in each case; otherwise it inserts a target storing the fresh baseline and
returns no error, touching no other target. -/
theorem add_contract (w : Watcher) (p : String)
    (snap : Except FsError Snapshot) :
    (p = "" → Watcher.add w p snap = (some AddError.emptyPath, w))
    ∧ (p ≠ "" → (lookup p w.watches).isSome →
        Watcher.add w p snap = (some AddError.alreadyWatched, w))
    ∧ (∀ e, p ≠ "" → lookup p w.watches = none → snap = Except.error e →
        Watcher.add w p snap = (some (AddError.fsError e), w))
    ∧ (∀ files, p ≠ "" → lookup p w.watches = none → snap = Except.ok files →
        (Watcher.add w p snap).1 = none
        ∧ lookup p (Watcher.add w p snap).2.watches
            = some { path := p, files := files }
        ∧ (∀ q, q ≠ p → lookup q (Watcher.add w p snap).2.watches
            = lookup q w.watches)
        ∧ (Watcher.add w p snap).2.isRunning = w.isRunning) := by
  refine ⟨?_, ?_, ?_, ?_⟩
  · intro hp
    simp [Watcher.add, hp]
  · intro hp hs
    simp [Watcher.add, hp, hs]
  · intro e hp hl hsnap
    subst hsnap
    simp [Watcher.add, hp, hl]
  · intro files hp hl hsnap
    subst hsnap
    refine ⟨?_, ?_, ?_, ?_⟩
    · simp [Watcher.add, hp, hl]
    · simp [Watcher.add, hp, hl, lookup_mapInsert]
    · intro q hq
      simp only [Watcher.add, if_neg hp, hl, Option.isSome_none,
        Bool.false_eq_true, if_neg]
      simp [lookup_mapInsert]
      intro h
      exact absurd h.symm hq
    · simp [Watcher.add, hp, hl]

/-- Witness for C6: adding a fresh path to an empty watcher succeeds,
stores the baseline, and leaves everything else alone. -/
theorem add_contract_witness :
    (Watcher.add newWatcher "/tmp/w"
        (Except.ok [("a.txt", { path := "/tmp/w/a.txt", modTime := 1, mode := 420 })])).1
      = none
    ∧ lookup "/tmp/w" (Watcher.add newWatcher "/tmp/w"
        (Except.ok [("a.txt", { path := "/tmp/w/a.txt", modTime := 1, mode := 420 })])).2.watches
      = some { path := "/tmp/w",
               files := [("a.txt", { path := "/tmp/w/a.txt", modTime := 1, mode := 420 })] }
    ∧ (∀ q, q ≠ "/tmp/w" → lookup q (Watcher.add newWatcher "/tmp/w"
        (Except.ok [("a.txt", { path := "/tmp/w/a.txt", modTime := 1, mode := 420 })])).2.watches
      = lookup q newWatcher.watches)
    ∧ (Watcher.add newWatcher "/tmp/w"
        (Except.ok [("a.txt", { path := "/tmp/w/a.txt", modTime := 1, mode := 420 })])).2.isRunning
      = newWatcher.isRunning :=
  (add_contract newWatcher "/tmp/w"
      (Except.ok [("a.txt", { path := "/tmp/w/a.txt", modTime := 1, mode := 420 })])).2.2.2
    [("a.txt", { path := "/tmp/w/a.txt", modTime := 1, mode := 420 })]
    (by decide) rfl rfl

/-- Claim C7: on a freshly running watcher (flag set, no close side effect
performed yet) any positive number of consecutive `Close` calls never
panics and yields the stopped state in which the ticker stop and each
channel close happened exactly once: the first call performs the effects,
every later call is a no-op. -/
theorem close_exactly_once (w : Watcher) (hrun : w.isRunning = true)
    (hts : w.tickerStops = 0) (hev : w.eventCloses = 0)
    (her : w.errorCloses = 0) :
    ∀ n : Nat, closeIter (n + 1) w
      = some { watches := w.watches, isRunning := false, tickerStops := 1,
               eventCloses := 1, errorCloses := 1 } := by
  have hclose : Watcher.close w
      = some { watches := w.watches, isRunning := false, tickerStops := 1,
               eventCloses := 1, errorCloses := 1 } := by
    unfold Watcher.close closeChan
    rw [hrun, hts, hev, her]
    rfl
  have hstopped : ∀ m : Nat, ∀ w' : Watcher, w'.isRunning = false →
      closeIter m w' = some w' := by
    intro m
    induction m with
    | zero =>
      intro w' h
      rfl
    | succ m ih =>
      intro w' h
      show (Watcher.close w').bind (closeIter m) = some w'
      have hc : Watcher.close w' = some w' := by
        unfold Watcher.close
        rw [h]
        rfl
      rw [hc]
      exact ih w' h
  intro n
  show (Watcher.close w).bind (closeIter n) = _
  rw [hclose]
  exact hstopped n _ rfl

/-- Witness for C7: three consecutive closes of a fresh watcher. -/
theorem close_exactly_once_witness :
    closeIter 3 newWatcher
      = some { watches := [], isRunning := false, tickerStops := 1,
               eventCloses := 1, errorCloses := 1 } :=
  close_exactly_once newWatcher rfl rfl rfl rfl 2

/-- Claim C10: the string form of an event is the double-quoted path, a
colon and a space, then the names of the set flags joined by a bar in the
fixed order Create, Remove, Write, Rename, Chmod, absent flags omitted
(the join of the empty list when no flag is set). -/
theorem event_string_canonical (e : Event) :
    eventString e = goQuote e.Name ++ ": "
      ++ String.intercalate "|" (specFlagNames e.Op) := by
  unfold eventString specFlagNames trimLeadingBar
  cases h1 : e.Op &&& Create == Create <;>
    cases h2 : e.Op &&& Remove == Remove <;>
      cases h3 : e.Op &&& Write == Write <;>
        cases h4 : e.Op &&& Rename == Rename <;>
          cases h5 : e.Op &&& Chmod == Chmod <;>
            rfl

end FsWatch
